import Mathlib

/-
  Verification of the gitkick specification against `src/main.go`.

  The repository is a git-workflow orchestrator.  `src/main.go` holds two
  revisions of the program, concatenated: an oldest revision (whose only
  command `push` runs `PushService.SquashWithForcedPush`) and a later
  revision (commands `squash`, `clean`, `commitall` on
  `CodeFlowManageService`).  The spec additionally describes a final
  revision (commands `commit` and `push`, a `--message` flag and the
  commit-message derivation of spec section 4.3) whose code is not in
  `src/`; the definitions for those parts are modelled from the spec and
  say so in their doc comments.

  Modelling choices:
  * Strings are `List Char`; Go errors are `List Char` messages built with
    the same format strings the source uses.
  * Each call into the external `git` binary is an element of `GitOp`; a
    workflow returns its `Except` result together with the list of git
    invocations it performed, in order.  The outcome of each external call
    is supplied by a `GitEnv` environment: for every operation the
    environment holds either the captured stdout or the failure text, so a
    workflow is a pure function of the environment and its arguments.
-/

/-- ASCII model of Go `strings.TrimSpace`: drop whitespace from both ends. -/
def trimWS (s : List Char) : List Char :=
  ((s.dropWhile Char.isWhitespace).reverse.dropWhile Char.isWhitespace).reverse

/-- Model of Go `strings.Split(s, "\n")`: split into fields at every newline. -/
def splitNl : List Char → List (List Char)
  | [] => [[]]
  | c :: rest =>
    match splitNl rest with
    | [] => [[]]
    | f :: fs => if c = '\n' then [] :: f :: fs else (c :: f) :: fs

/-- Model of Go `strings.TrimPrefix(line, "*")`: drop one leading star if present. -/
def trimStar : List Char → List Char
  | '*' :: rest => rest
  | l => l

/-- Boolean "the first list leads the second": `startsWithList p s` holds when
`s` begins with `p`. -/
def startsWithList : List Char → List Char → Bool
  | [], _ => true
  | _ :: _, [] => false
  | a :: as, b :: bs => a = b && startsWithList as bs

/-- One invocation of the external `git` binary, as recorded in a workflow's
trace.  Constructors carry the arguments that vary. -/
inductive GitOp where
  /-- `git status --porcelain` -/
  | status
  /-- `git branch --show-current` -/
  | showCurrent
  /-- `git branch <name>` (later revision: create without switching) -/
  | newBranch (name : List Char)
  /-- `git checkout -b <name>` (oldest revision) -/
  | checkoutB (name : List Char)
  /-- `git switch <name>` -/
  | switchTo (name : List Char)
  /-- `git cherry -v <target>` -/
  | cherry (target : List Char)
  /-- `git reset --soft HEAD~n` -/
  | resetSoft (n : Nat)
  /-- `git add .` -/
  | addAll
  /-- `git commit -m <msg>` -/
  | commit (msg : List Char)
  /-- `git push --force --set-upstream origin <branch>` (later revision) -/
  | pushForceUp (branch : List Char)
  /-- `git push --force` (oldest revision) -/
  | pushForceBare
  /-- `git push --set-upstream origin <branch>` (final revision, modelled) -/
  | pushUp (branch : List Char)
  /-- `git branch --list <pat>*` -/
  | branchList (pat : List Char)
  /-- `git branch -D <name>` -/
  | branchDelete (name : List Char)
  deriving DecidableEq

/-- Operations that mutate repository state (create/move refs, touch the
index, create commits, push, delete branches), as opposed to pure queries. -/
def GitOp.isMutation : GitOp → Bool
  | .status | .showCurrent | .cherry _ | .branchList _ => false
  | _ => true

/-- Outcome of every external `git` call a single workflow invocation can
make: either the captured stdout (`Except.ok`) or the text that the Go code
interpolates into its error message (`Except.error` / `some`).  Defaults make
every call succeed with empty output. -/
structure GitEnv where
  statusOut : Except (List Char) (List Char) := .ok []
  branchOut : Except (List Char) (List Char) := .ok []
  cherryOut : Except (List Char) (List Char) := .ok []
  timestamp : List Char := []
  hash : List Char := []
  newBranchRes : Option (List Char) := none
  checkoutRes : Option (List Char) := none
  switchRes : Option (List Char) := none
  resetRes : Option (List Char) := none
  addAllRes : Option (List Char) := none
  commitRes : Option (List Char) := none
  pushForceRes : Option (List Char) := none
  pushUpRes : Option (List Char) := none
  branchListOut : Except (List Char) (List Char) := .ok []
  deleteRes : List Char → Option (List Char) := fun _ => none

instance {ε α : Type} [DecidableEq ε] [DecidableEq α] : DecidableEq (Except ε α) :=
  fun a b =>
    match a, b with
    | .ok x, .ok y =>
      if h : x = y then .isTrue (by rw [h]) else .isFalse (by intro hc; cases hc; exact h rfl)
    | .error x, .error y =>
      if h : x = y then .isTrue (by rw [h]) else .isFalse (by intro hc; cases hc; exact h rfl)
    | .ok _, .error _ => .isFalse (by intro hc; cases hc)
    | .error _, .ok _ => .isFalse (by intro hc; cases hc)

/-- Embeds `GitService.GetCurrentBranchName`: trim the output of
`git branch --show-current`; wrap a failure as
`"failed to get current branch: %w"`. -/
def getCurrentBranchName (env : GitEnv) : Except (List Char) (List Char) :=
  match env.branchOut with
  | .error e => .error ("failed to get current branch: ".toList ++ e)
  | .ok out => .ok (trimWS out)

/-- Embeds `GitService.StatusWithPorcelain` (later revision): return the raw
`git status --porcelain` output; failure text `"failed to check working tree status: %s"`. -/
def statusWithPorcelain (env : GitEnv) : Except (List Char) (List Char) :=
  match env.statusOut with
  | .error out => .error ("failed to check working tree status: ".toList ++ out)
  | .ok out => .ok out

/-- Embeds `GitService.GetCommitsDiffCount`: on success trim the
`git cherry -v <target>` output, report `0` for empty output and otherwise
the number of newline-separated lines; wrap a failure as
`"failed to count diff for target branch %s: %w"`. -/
def getCommitsDiffCount (env : GitEnv) (targetBranch : List Char) : Except (List Char) Nat :=
  match env.cherryOut with
  | .error e =>
    .error ("failed to count diff for target branch ".toList ++ targetBranch
      ++ ": ".toList ++ e)
  | .ok out =>
    let trimmed := trimWS out
    if trimmed = [] then .ok 0 else .ok (splitNl trimmed).length

/-- Embeds `GitService.NewBranch` (later revision): `git branch <name>`;
failure text `"failed to create branch %s: %s"`. -/
def newBranchOp (env : GitEnv) (branchName : List Char) : Except (List Char) Unit :=
  match env.newBranchRes with
  | some out =>
    .error ("failed to create branch ".toList ++ branchName ++ ": ".toList ++ out)
  | none => .ok ()

/-- Embeds `GitService.CheckoutNewBranch` (oldest revision):
`git checkout -b <name>`; failure text `"failed to create branch %s: %w"`. -/
def checkoutNewBranchOp (env : GitEnv) (branchName : List Char) : Except (List Char) Unit :=
  match env.checkoutRes with
  | some out =>
    .error ("failed to create branch ".toList ++ branchName ++ ": ".toList ++ out)
  | none => .ok ()

/-- Embeds `GitService.SwitchToBranch`: `git switch <name>`; failure text
`"failed to switch branch %s: %s"`. -/
def switchToBranchOp (env : GitEnv) (branchName : List Char) : Except (List Char) Unit :=
  match env.switchRes with
  | some out =>
    .error ("failed to switch branch ".toList ++ branchName ++ ": ".toList ++ out)
  | none => .ok ()

/-- Embeds `GitService.ResetSoft`: `git reset --soft HEAD~n`; failure text
`"failed to reset softly %s"`. -/
def resetSoftOp (env : GitEnv) : Except (List Char) Unit :=
  match env.resetRes with
  | some out => .error ("failed to reset softly ".toList ++ out)
  | none => .ok ()

/-- Embeds `GitService.AddAll`: `git add .`; failure text
`"failed to add all changes %s"`. -/
def addAllOp (env : GitEnv) : Except (List Char) Unit :=
  match env.addAllRes with
  | some out => .error ("failed to add all changes ".toList ++ out)
  | none => .ok ()

/-- Embeds `GitService.Commit`: `git commit -m <msg>`; failure text
`"failed to commit %s"`. -/
def commitOp (env : GitEnv) : Except (List Char) Unit :=
  match env.commitRes with
  | some out => .error ("failed to commit ".toList ++ out)
  | none => .ok ()

/-- Embeds `GitService.PushForce` (both revisions; the later one passes the
branch, both share the failure text `"failed to force push %s"`). -/
def pushForceOp (env : GitEnv) : Except (List Char) Unit :=
  match env.pushForceRes with
  | some out => .error ("failed to force push ".toList ++ out)
  | none => .ok ()

/-- Embeds `GitService.DeleteLocalBranch`: `git branch -D <name>`; failure
text `"failed to delete branch %s err %s"`. -/
def deleteLocalBranchOp (env : GitEnv) (branchName : List Char) : Except (List Char) Unit :=
  match env.deleteRes branchName with
  | some out =>
    .error ("failed to delete branch ".toList ++ branchName ++ " err ".toList ++ out)
  | none => .ok ()

/-- The fixed fallback-branch marker `"kk-fallback"` that `Squash` builds
branch names from and `CleanFallbackBranches` lists by. -/
def kkFallback : List Char := "kk-fallback".toList

/-- Embeds `GitService.ListBranchesWithPrefix` as specialised to the fixed
marker: parse `git branch --list kk-fallback*` output — trim, split into
lines, per line drop one leading `*` and trim, keep non-empty entries. -/
def listBranchesMatching (env : GitEnv) : Except (List Char) (List (List Char)) :=
  match env.branchListOut with
  | .error e => .error ("failed to list branches: ".toList ++ e)
  | .ok out =>
    let trimmed := trimWS out
    if trimmed = [] then .ok []
    else .ok (((splitNl trimmed).map (fun line => trimWS (trimStar line))).filter (· ≠ []))

/-- Embeds the fallback-branch name built at `Squash`:
`fmt.Sprintf("%s-%s-%s", "kk-fallback", currentBranch, ts)`. -/
def fallbackName (currentBranch ts : List Char) : List Char :=
  kkFallback ++ '-' :: (currentBranch ++ '-' :: ts)

/-- Embeds `parseFlag` of `main`: the argument following the first occurrence
of `flag` that has a successor, else the empty string. -/
def parseFlag : List (List Char) → List Char → List Char
  | a :: b :: rest, flag => if a = flag then b else parseFlag (b :: rest) flag
  | _, _ => []

/-- Embeds `hasFlag` of `main`: whether `flag` occurs among the arguments. -/
def hasFlag : List (List Char) → List Char → Bool
  | [], _ => false
  | a :: rest, flag => a = flag || hasFlag rest flag

/-- Embeds the `squash` branch of `main` (later revision): the comparison
branch comes from `--compare`, then `-c`, then defaults to `"develop"`; the
force flag is `--push-force`; the message flag is `-m`. -/
def mainSquashParse (args : List (List Char)) : List Char × Bool × List Char :=
  let c0 := parseFlag args "--compare".toList
  let c1 := if c0 = [] then parseFlag args "-c".toList else c0
  let c2 := if c1 = [] then "develop".toList else c1
  (c2, hasFlag args "--push-force".toList, parseFlag args "-m".toList)

/-- Embeds `CodeFlowManageService.Squash` (later revision in `src/main.go`),
returning the result together with the ordered trace of git invocations.
Control flow mirrors the source exactly, including two slips it contains:
the error of the `AddAll` step is swallowed (`return nil`), and the commit
is made with `currentBranch` although the source just computed `message`
from the `-m` flag. -/
def CodeFlowManageService.Squash (env : GitEnv) (comparableBranch : List Char) (forcePush : Bool)
    (commitMessage : List Char) : Except (List Char) Unit × List GitOp :=
  match statusWithPorcelain env with
  | .error e =>
    (.error ("failed to get working tree status: ".toList ++ e), [.status])
  | .ok status =>
    if trimWS status ≠ [] then
      (.error ("working tree is not clean: ".toList ++ status), [.status])
    else
      match getCurrentBranchName env with
      | .error e => (.error e, [.status, .showCurrent])
      | .ok currentBranch =>
        if comparableBranch = currentBranch then
          (.error "comparable branch is the same as current branch".toList,
            [.status, .showCurrent])
        else
          match getCommitsDiffCount env comparableBranch with
          | .error e => (.error e, [.status, .showCurrent, .cherry comparableBranch])
          | .ok diff =>
            if diff ≤ 1 then
              (.ok (), [.status, .showCurrent, .cherry comparableBranch])
            else
              let fallbackBranch := fallbackName currentBranch env.timestamp
              match newBranchOp env fallbackBranch with
              | .error e =>
                (.error e, [.status, .showCurrent, .cherry comparableBranch,
                  .newBranch fallbackBranch])
              | .ok _ =>
                match resetSoftOp env with
                | .error e =>
                  (.error e, [.status, .showCurrent, .cherry comparableBranch,
                    .newBranch fallbackBranch, .resetSoft diff])
                | .ok _ =>
                  match addAllOp env with
                  | .error _ =>
                    (.ok (), [.status, .showCurrent, .cherry comparableBranch,
                      .newBranch fallbackBranch, .resetSoft diff, .addAll])
                  | .ok _ =>
                    let message := if commitMessage = [] then currentBranch else commitMessage
                    match commitOp env with
                    | .error e =>
                      (.error e, [.status, .showCurrent, .cherry comparableBranch,
                        .newBranch fallbackBranch, .resetSoft diff, .addAll,
                        .commit currentBranch])
                    | .ok _ =>
                      if forcePush then
                        match pushForceOp env with
                        | .error e =>
                          (.error e, [.status, .showCurrent, .cherry comparableBranch,
                            .newBranch fallbackBranch, .resetSoft diff, .addAll,
                            .commit currentBranch, .pushForceUp currentBranch])
                        | .ok _ =>
                          (.ok (), [.status, .showCurrent, .cherry comparableBranch,
                            .newBranch fallbackBranch, .resetSoft diff, .addAll,
                            .commit currentBranch, .pushForceUp currentBranch])
                      else
                        (.ok (), [.status, .showCurrent, .cherry comparableBranch,
                          .newBranch fallbackBranch, .resetSoft diff, .addAll,
                          .commit currentBranch])

/-- Embeds `PushService.SquashWithForcedPush` (oldest revision in
`src/main.go`): save the branch under `<branch>-<hash>`, switch back, count
commits against the target, soft-reset, stage (error swallowed by
`return nil`), commit with the raw branch name, and always force-push. -/
def PushService.SquashWithForcedPush (env : GitEnv) (targetBranch : List Char) :
    Except (List Char) Unit × List GitOp :=
  match getCurrentBranchName env with
  | .error e => (.error e, [.showCurrent])
  | .ok branch =>
    let newBranch := branch ++ '-' :: env.hash
    match checkoutNewBranchOp env newBranch with
    | .error e => (.error e, [.showCurrent, .checkoutB newBranch])
    | .ok _ =>
      match switchToBranchOp env branch with
      | .error e => (.error e, [.showCurrent, .checkoutB newBranch, .switchTo branch])
      | .ok _ =>
        match getCommitsDiffCount env targetBranch with
        | .error e =>
          (.error e, [.showCurrent, .checkoutB newBranch, .switchTo branch,
            .cherry targetBranch])
        | .ok diff =>
          match resetSoftOp env with
          | .error e =>
            (.error e, [.showCurrent, .checkoutB newBranch, .switchTo branch,
              .cherry targetBranch, .resetSoft diff])
          | .ok _ =>
            match addAllOp env with
            | .error _ =>
              (.ok (), [.showCurrent, .checkoutB newBranch, .switchTo branch,
                .cherry targetBranch, .resetSoft diff, .addAll])
            | .ok _ =>
              match commitOp env with
              | .error e =>
                (.error e, [.showCurrent, .checkoutB newBranch, .switchTo branch,
                  .cherry targetBranch, .resetSoft diff, .addAll, .commit branch])
              | .ok _ =>
                match pushForceOp env with
                | .error e =>
                  (.error e, [.showCurrent, .checkoutB newBranch, .switchTo branch,
                    .cherry targetBranch, .resetSoft diff, .addAll, .commit branch,
                    .pushForceBare])
                | .ok _ =>
                  (.ok (), [.showCurrent, .checkoutB newBranch, .switchTo branch,
                    .cherry targetBranch, .resetSoft diff, .addAll, .commit branch,
                    .pushForceBare])

/-- Helper loop of `CleanFallbackBranches`: delete each listed branch in
order, stopping at the first failure. -/
def cleanLoop (env : GitEnv) : List (List Char) → Except (List Char) Unit × List GitOp
  | [] => (.ok (), [])
  | b :: rest =>
    match deleteLocalBranchOp env b with
    | .error e => (.error e, [.branchDelete b])
    | .ok _ =>
      match cleanLoop env rest with
      | (r, tr) => (r, .branchDelete b :: tr)

/-- Embeds `CodeFlowManageService.CleanFallbackBranches`: list local branches
starting with `kk-fallback`, succeed immediately when none match, otherwise
force-delete each one; the third component is the total the final log line
reports (`len(branches)`), `none` when that log line is not reached. -/
def CodeFlowManageService.CleanFallbackBranches (env : GitEnv) :
    Except (List Char) Unit × List GitOp × Option Nat :=
  match listBranchesMatching env with
  | .error e => (.error e, [.branchList kkFallback], none)
  | .ok branches =>
    if branches = [] then (.ok (), [.branchList kkFallback], none)
    else
      match cleanLoop env branches with
      | (.error e, tr) => (.error e, .branchList kkFallback :: tr, none)
      | (.ok _, tr) => (.ok (), .branchList kkFallback :: tr, some branches.length)

/-- Embeds `CodeFlowManageService.CommitAll` (later revision in
`src/main.go`): stage everything, then commit with the raw current branch
name as the message. -/
def CodeFlowManageService.CommitAll (env : GitEnv) : Except (List Char) Unit × List GitOp :=
  match getCurrentBranchName env with
  | .error e => (.error e, [.showCurrent])
  | .ok branch =>
    match addAllOp env with
    | .error e => (.error e, [.showCurrent, .addAll])
    | .ok _ =>
      match commitOp env with
      | .error e => (.error e, [.showCurrent, .addAll, .commit branch])
      | .ok _ => (.ok (), [.showCurrent, .addAll, .commit branch])

/-- Modelled from the spec: hyphen-to-space replacement used by the
commit-message derivation of section 4.3 (`<rest with hyphens replaced by spaces>`). -/
def hyphenToSpace (r : List Char) : List Char :=
  r.map fun c => if c = '-' then ' ' else c

/-- Modelled from the spec: the matching step of the commit-message
derivation of section 4.3, which belongs to the final revision's `commit` and
`push` commands and is absent from `src/` (the `src/` revisions commit the
raw branch name).  Attempt to parse `<prefix letters>(- or /)<digits>-<rest>`:
a non-empty run of letters, one `-` or `/`, a non-empty run of digits, a
`-`, and the remainder. -/
def deriveCore (s : List Char) : Option (List Char × List Char × List Char) :=
  let p := s.takeWhile Char.isAlpha
  let rest := s.dropWhile Char.isAlpha
  if p = [] then none
  else
    match rest with
    | [] => none
    | sep :: rest2 =>
      if sep = '-' ∨ sep = '/' then
        let d := rest2.takeWhile Char.isDigit
        let rest3 := rest2.dropWhile Char.isDigit
        if d = [] then none
        else
          match rest3 with
          | '-' :: r => some (p, d, r)
          | _ => none
      else none

/-- Modelled from the spec: the commit-message derivation of section 4.3,
absent from `src/`.  On a match produce `[<PREFIX>-<NUMBER>] <rest with
hyphens replaced by spaces>`; on no match return the branch name verbatim. -/
def deriveMessage (s : List Char) : List Char :=
  match deriveCore s with
  | some (p, d, r) => '[' :: p ++ '-' :: d ++ ']' :: ' ' :: hyphenToSpace r
  | none => s

/-- Declarative form of the branch-name pattern
`<prefix letters>(- or /)<digits>-<rest>` from the spec, stated independently of
the executable parser: some decomposition into a non-empty all-letter run, a
`-` or `/` separator, a non-empty all-digit run, a `-`, and a remainder. -/
def MatchesPattern (s : List Char) : Prop :=
  ∃ p sep d r, p ≠ [] ∧ (∀ c ∈ p, c.isAlpha = true) ∧ (sep = '-' ∨ sep = '/') ∧
    d ≠ [] ∧ (∀ c ∈ d, c.isDigit = true) ∧ s = p ++ sep :: (d ++ '-' :: r)

/-- Modelled from the spec: the upstream push of the final revision's `push`
command (`pushes the current branch upstream, creating the upstream tracking
ref if absent`), absent from `src/`. -/
def pushUpOp (env : GitEnv) : Except (List Char) Unit :=
  match env.pushUpRes with
  | some out => .error ("failed to push ".toList ++ out)
  | none => .ok ()

/-- Modelled from the spec: the final revision's `push` workflow (section
4.5), absent from `src/`: check the working-tree status first; when dirty,
run the Commit workflow inline (stage all, commit with the message derived
from the current branch); then push the current branch upstream. -/
def PushWorkflow (env : GitEnv) : Except (List Char) Unit × List GitOp :=
  match statusWithPorcelain env with
  | .error e => (.error e, [.status])
  | .ok status =>
    match getCurrentBranchName env with
    | .error e => (.error e, [.status, .showCurrent])
    | .ok currentBranch =>
      if trimWS status = [] then
        match pushUpOp env with
        | .error e => (.error e, [.status, .showCurrent, .pushUp currentBranch])
        | .ok _ => (.ok (), [.status, .showCurrent, .pushUp currentBranch])
      else
        match addAllOp env with
        | .error e => (.error e, [.status, .showCurrent, .addAll])
        | .ok _ =>
          match commitOp env with
          | .error e =>
            (.error e, [.status, .showCurrent, .addAll,
              .commit (deriveMessage currentBranch)])
          | .ok _ =>
            match pushUpOp env with
            | .error e =>
              (.error e, [.status, .showCurrent, .addAll,
                .commit (deriveMessage currentBranch), .pushUp currentBranch])
            | .ok _ =>
              (.ok (), [.status, .showCurrent, .addAll,
                .commit (deriveMessage currentBranch), .pushUp currentBranch])

theorem takeWhile_all_cons_append {f : Char → Bool} {p t : List Char} {x : Char}
    (hp : ∀ c ∈ p, f c = true) (hx : f x = false) :
    (p ++ x :: t).takeWhile f = p := by
  induction p with
  | nil => simp [List.takeWhile, hx]
  | cons a as ih =>
    have ha : f a = true := hp a (List.mem_cons_self a as)
    simp only [List.cons_append, List.takeWhile, ha]
    have := ih (fun c hc => hp c (List.mem_cons_of_mem a hc))
    simp [this]

theorem dropWhile_all_cons_append {f : Char → Bool} {p t : List Char} {x : Char}
    (hp : ∀ c ∈ p, f c = true) (hx : f x = false) :
    (p ++ x :: t).dropWhile f = x :: t := by
  induction p with
  | nil => simp [List.dropWhile, hx]
  | cons a as ih =>
    have ha : f a = true := hp a (List.mem_cons_self a as)
    simp only [List.cons_append, List.dropWhile, ha]
    exact ih (fun c hc => hp c (List.mem_cons_of_mem a hc))

theorem deriveCore_of_decomp {p d r : List Char} {sep : Char}
    (hp : p ≠ []) (hpa : ∀ c ∈ p, c.isAlpha = true)
    (hsep : sep = '-' ∨ sep = '/') (hd : d ≠ []) (hdd : ∀ c ∈ d, c.isDigit = true) :
    deriveCore (p ++ sep :: (d ++ '-' :: r)) = some (p, d, r) := by
  have hsepA : sep.isAlpha = false := by rcases hsep with h | h <;> subst h <;> decide
  have ht : (p ++ sep :: (d ++ '-' :: r)).takeWhile Char.isAlpha = p :=
    takeWhile_all_cons_append hpa hsepA
  have hdr : (p ++ sep :: (d ++ '-' :: r)).dropWhile Char.isAlpha = sep :: (d ++ '-' :: r) :=
    dropWhile_all_cons_append hpa hsepA
  have hdashD : Char.isDigit '-' = false := by decide
  have htd : (d ++ '-' :: r).takeWhile Char.isDigit = d :=
    takeWhile_all_cons_append hdd hdashD
  have hdd2 : (d ++ '-' :: r).dropWhile Char.isDigit = '-' :: r :=
    dropWhile_all_cons_append hdd hdashD
  simp only [deriveCore, ht, hdr, htd, hdd2]
  simp [hp, hd, hsep]

theorem matches_of_deriveCore {s p d r : List Char} (h : deriveCore s = some (p, d, r)) :
    MatchesPattern s := by
  simp only [deriveCore] at h
  split at h
  · exact absurd h (by simp)
  · rename_i hpne
    split at h
    · exact absurd h (by simp)
    · rename_i sep rest2 hrest
      split at h
      · rename_i hsep
        split at h
        · exact absurd h (by simp)
        · rename_i hdne
          split at h
          · rename_i r2 hrest3
            simp only [Option.some.injEq, Prod.mk.injEq] at h
            obtain ⟨hP, hD, hR⟩ := h
            refine ⟨p, sep, d, r, ?_, ?_, hsep, ?_, ?_, ?_⟩
            · rw [← hP]; exact hpne
            · intro c hc; rw [← hP] at hc; exact List.mem_takeWhile_imp hc
            · rw [← hD]; exact hdne
            · intro c hc; rw [← hD] at hc; exact List.mem_takeWhile_imp hc
            · have h1 : s = s.takeWhile Char.isAlpha ++ s.dropWhile Char.isAlpha :=
                (List.takeWhile_append_dropWhile _ _).symm
              have h2 : rest2 = rest2.takeWhile Char.isDigit ++ rest2.dropWhile Char.isDigit :=
                (List.takeWhile_append_dropWhile _ _).symm
              have h3 : rest2 = d ++ '-' :: r := by rw [h2, hD, hrest3, hR]
              rw [h1, hP, hrest, h3]
          · exact absurd h (by simp)
      · exact absurd h (by simp)

theorem not_matches_of_core_none {s : List Char} (h : deriveCore s = none) :
    ¬ MatchesPattern s := by
  rintro ⟨p, sep, d, r, hp, hpa, hsep, hd, hdd, hs⟩
  rw [hs, deriveCore_of_decomp hp hpa hsep hd hdd] at h
  exact Option.noConfusion h

/-- Claim C1: commit-message derivation is a pure function of the branch
name: every branch matching the pattern of spec section 4.3 is mapped to
the bracketed form with hyphens of the remainder replaced by spaces, and
every non-matching branch is mapped to itself. -/
theorem deriveMessage_spec (s : List Char) :
    (∀ p sep d r, p ≠ [] → (∀ c ∈ p, c.isAlpha = true) → (sep = '-' ∨ sep = '/') →
        d ≠ [] → (∀ c ∈ d, c.isDigit = true) → s = p ++ sep :: (d ++ '-' :: r) →
        deriveMessage s = '[' :: p ++ '-' :: d ++ ']' :: ' ' :: hyphenToSpace r)
    ∧ (¬ MatchesPattern s → deriveMessage s = s) := by
  constructor
  · intro p sep d r hp hpa hsep hd hdd hs
    subst hs
    simp [deriveMessage, deriveCore_of_decomp hp hpa hsep hd hdd]
  · intro hnm
    unfold deriveMessage
    cases hc : deriveCore s with
    | none => rfl
    | some t =>
      obtain ⟨p, d, r⟩ := t
      exact absurd (matches_of_deriveCore hc) hnm

/-- Witness for C1 at the spec's own example (and one non-matching name). -/
theorem deriveMessage_spec_witness :
    deriveMessage "ccs-123-fix-login-bug".toList = "[ccs-123] fix login bug".toList
    ∧ deriveMessage "main".toList = "main".toList := by
  constructor
  · have h := (deriveMessage_spec "ccs-123-fix-login-bug".toList).1
      "ccs".toList '-' "123".toList "fix-login-bug".toList
      (by decide) (by decide) (by decide) (by decide) (by decide) (by decide)
    exact h.trans (by decide)
  · exact (deriveMessage_spec "main".toList).2 (not_matches_of_core_none (by decide))

/-- Claim C6: Squash checks its two preconditions in order.  A status query
that returns a non-empty (dirty) status aborts with an error that embeds the
raw status text, whatever the comparison branch is — in particular before
the branch comparison and before any mutating operation.  On a clean tree,
a comparison branch equal to the current branch aborts with an error before
any mutating operation.  Both failure traces contain queries only. -/
theorem squash_preconditions (env : GitEnv) (cmp msg : List Char) (fp : Bool) :
    (∀ status, env.statusOut = .ok status → trimWS status ≠ [] →
      CodeFlowManageService.Squash env cmp fp msg =
        (.error ("working tree is not clean: ".toList ++ status), [.status])
      ∧ ((CodeFlowManageService.Squash env cmp fp msg).2.filter GitOp.isMutation = []))
    ∧ (∀ status cur, env.statusOut = .ok status → trimWS status = [] →
      getCurrentBranchName env = .ok cur → cmp = cur →
      CodeFlowManageService.Squash env cmp fp msg =
        (.error "comparable branch is the same as current branch".toList,
          [.status, .showCurrent])
      ∧ ((CodeFlowManageService.Squash env cmp fp msg).2.filter GitOp.isMutation = [])) := by
  constructor
  · intro status hstat hdirty
    have hsw : statusWithPorcelain env = .ok status := by
      simp [statusWithPorcelain, hstat]
    have h1 : CodeFlowManageService.Squash env cmp fp msg =
        (.error ("working tree is not clean: ".toList ++ status), [.status]) := by
      simp [CodeFlowManageService.Squash, hsw, hdirty]
    exact ⟨h1, by rw [h1]; rfl⟩
  · intro status cur hstat hclean hcur heq
    have hsw : statusWithPorcelain env = .ok status := by
      simp [statusWithPorcelain, hstat]
    have h1 : CodeFlowManageService.Squash env cmp fp msg =
        (.error "comparable branch is the same as current branch".toList,
          [.status, .showCurrent]) := by
      simp [CodeFlowManageService.Squash, hsw, hclean, hcur, heq]
    exact ⟨h1, by rw [h1]; rfl⟩

/-- Witness for C6: a concrete dirty tree (status `" M a.txt"`) and a
concrete clean tree whose comparison branch equals the current branch. -/
theorem squash_preconditions_witness :
    (CodeFlowManageService.Squash { statusOut := .ok " M a.txt".toList }
        "develop".toList false [] =
      (.error ("working tree is not clean: ".toList ++ " M a.txt".toList), [.status]))
    ∧ (CodeFlowManageService.Squash { branchOut := .ok "develop".toList }
        "develop".toList false [] =
      (.error "comparable branch is the same as current branch".toList,
        [.status, .showCurrent])) :=
  ⟨((squash_preconditions { statusOut := .ok " M a.txt".toList } "develop".toList [] false).1
      " M a.txt".toList (by decide) (by decide)).1,
   ((squash_preconditions { branchOut := .ok "develop".toList } "develop".toList [] false).2
      [] "develop".toList (by decide) (by decide) (by decide) (by decide)).1⟩

/-- Claim C7: with both preconditions satisfied and a commits-ahead count of
at most 1, Squash succeeds and its trace holds only the three queries — no
fallback branch, no reset, no staging, no commit, no push — so a rerun
directly after a successful squash (which leaves the branch one commit
ahead) is a no-op. -/
theorem squash_noop_when_diff_le_one (env : GitEnv) (cmp msg : List Char) (fp : Bool)
    (status cur : List Char) (diff : Nat)
    (hstat : env.statusOut = .ok status) (hclean : trimWS status = [])
    (hcur : getCurrentBranchName env = .ok cur) (hne : cmp ≠ cur)
    (hdiff : getCommitsDiffCount env cmp = .ok diff) (hle : diff ≤ 1) :
    CodeFlowManageService.Squash env cmp fp msg =
      (.ok (), [.status, .showCurrent, .cherry cmp])
    ∧ ((CodeFlowManageService.Squash env cmp fp msg).2.filter GitOp.isMutation = []) := by
  have hsw : statusWithPorcelain env = .ok status := by
    simp [statusWithPorcelain, hstat]
  have h1 : CodeFlowManageService.Squash env cmp fp msg =
      (.ok (), [.status, .showCurrent, .cherry cmp]) := by
    simp [CodeFlowManageService.Squash, hsw, hclean, hcur, hne, hdiff, hle]
  exact ⟨h1, by rw [h1]; rfl⟩

/-- Witness for C7: a clean tree one commit ahead of `develop`
(`git cherry` output has a single line). -/
theorem squash_noop_when_diff_le_one_witness :
    CodeFlowManageService.Squash
      { branchOut := .ok "feature-1".toList, cherryOut := .ok "+ abc123 msg".toList }
      "develop".toList false [] =
    (.ok (), [.status, .showCurrent, .cherry "develop".toList]) :=
  (squash_noop_when_diff_le_one
    { branchOut := .ok "feature-1".toList, cherryOut := .ok "+ abc123 msg".toList }
    "develop".toList [] false [] "feature-1".toList 1
    (by decide) (by decide) (by decide) (by decide) (by decide) (by decide)).1

/-- Claim C8: when the commits-ahead count cannot be computed (the `git
cherry` call fails, e.g. because the comparison branch is unknown), Squash
propagates that error unchanged and its trace holds only queries — no
fallback branch was created and nothing was mutated. -/
theorem squash_diff_error_no_mutation (env : GitEnv) (cmp msg : List Char) (fp : Bool)
    (status cur e : List Char)
    (hstat : env.statusOut = .ok status) (hclean : trimWS status = [])
    (hcur : getCurrentBranchName env = .ok cur) (hne : cmp ≠ cur)
    (hdiff : getCommitsDiffCount env cmp = .error e) :
    CodeFlowManageService.Squash env cmp fp msg =
      (.error e, [.status, .showCurrent, .cherry cmp])
    ∧ ((CodeFlowManageService.Squash env cmp fp msg).2.filter GitOp.isMutation = []) := by
  have hsw : statusWithPorcelain env = .ok status := by
    simp [statusWithPorcelain, hstat]
  have h1 : CodeFlowManageService.Squash env cmp fp msg =
      (.error e, [.status, .showCurrent, .cherry cmp]) := by
    simp [CodeFlowManageService.Squash, hsw, hclean, hcur, hne, hdiff]
  exact ⟨h1, by rw [h1]; rfl⟩

/-- Witness for C8: `git cherry -v unknown` fails with `exit status 128`;
the squash returns the wrapped error and performs no mutation. -/
theorem squash_diff_error_no_mutation_witness :
    CodeFlowManageService.Squash
      { branchOut := .ok "feature-1".toList, cherryOut := .error "exit status 128".toList }
      "unknown".toList false [] =
    (.error ("failed to count diff for target branch ".toList ++ "unknown".toList
        ++ ": ".toList ++ "exit status 128".toList),
      [.status, .showCurrent, .cherry "unknown".toList]) :=
  (squash_diff_error_no_mutation
    { branchOut := .ok "feature-1".toList, cherryOut := .error "exit status 128".toList }
    "unknown".toList [] false [] "feature-1".toList
    ("failed to count diff for target branch ".toList ++ "unknown".toList
      ++ ": ".toList ++ "exit status 128".toList)
    (by decide) (by decide) (by decide) (by decide) (by decide)).1

/-- Claim C2 (code bug, evaluated at the failing input): on branch
`feature-1`, clean tree, three commits ahead of `develop`, every git call
succeeding, and the caller-supplied message `fix stuff`, the later
revision's Squash commits with message `feature-1` — the raw branch name —
and never with `fix stuff`: line 492 of `src/main.go` passes
`currentBranch` to `Commit` although lines 488-491 just computed `message`
from the `-m` flag and line 496 logs that `message` as the one committed. -/
theorem squash_ignores_supplied_message :
    CodeFlowManageService.Squash
      { branchOut := .ok "feature-1".toList, cherryOut := .ok "+ a\n+ b\n+ c".toList,
        timestamp := "2026-10-11-12-00-00".toList }
      "develop".toList false "fix stuff".toList =
      (.ok (), [.status, .showCurrent, .cherry "develop".toList,
        .newBranch (fallbackName "feature-1".toList "2026-10-11-12-00-00".toList),
        .resetSoft 3, .addAll, .commit "feature-1".toList])
    ∧ GitOp.commit "fix stuff".toList ∉
        (CodeFlowManageService.Squash
          { branchOut := .ok "feature-1".toList, cherryOut := .ok "+ a\n+ b\n+ c".toList,
            timestamp := "2026-10-11-12-00-00".toList }
          "develop".toList false "fix stuff".toList).2 := by decide

/-- Claim C3 (code bug, evaluated at the failing input): when `git add .`
fails after the reset, both revisions in `src/` return success (`return
nil`) instead of propagating the staging error, and the commit step is
silently skipped. -/
theorem squash_swallows_staging_error :
    CodeFlowManageService.Squash
      { branchOut := .ok "feature-1".toList, cherryOut := .ok "+ a\n+ b\n+ c".toList,
        timestamp := "2026-10-11-12-00-00".toList, addAllRes := some "exit status 1".toList }
      "develop".toList false [] =
      (.ok (), [.status, .showCurrent, .cherry "develop".toList,
        .newBranch (fallbackName "feature-1".toList "2026-10-11-12-00-00".toList),
        .resetSoft 3, .addAll])
    ∧ PushService.SquashWithForcedPush
      { branchOut := .ok "feature-1".toList, cherryOut := .ok "+ a\n+ b\n+ c".toList,
        hash := "ab12cd".toList, addAllRes := some "exit status 1".toList }
      "develop".toList =
      (.ok (), [.showCurrent, .checkoutB ("feature-1".toList ++ '-' :: "ab12cd".toList),
        .switchTo "feature-1".toList, .cherry "develop".toList, .resetSoft 3, .addAll]) := by
  decide

/-- Counterexample to claim C4: the later revision in `src/` — not the
oldest one — parses a `--push-force` flag in `main` and its Squash does
force-push when the flag is set. -/
theorem squash_force_push_counterexample :
    mainSquashParse ["--push-force".toList] = ("develop".toList, true, [])
    ∧ GitOp.pushForceUp "feature-1".toList ∈
        (CodeFlowManageService.Squash
          { branchOut := .ok "feature-1".toList, cherryOut := .ok "+ a\n+ b".toList }
          "develop".toList true []).2 := by decide

/-- Claim C4 amended: force-pushing is not exclusive to the oldest revision.
Without `--push-force` the later revision's Squash never force-pushes; with
it, a squash that reaches the commit step force-pushes the current branch;
and the oldest revision's workflow force-pushes unconditionally whenever it
reaches its final step. -/
theorem squash_force_push_amended :
    (∀ env cmp msg b, GitOp.pushForceUp b ∉
        (CodeFlowManageService.Squash env cmp false msg).2)
    ∧ (∀ env cmp msg status cur diff, env.statusOut = .ok status → trimWS status = [] →
        getCurrentBranchName env = .ok cur → cmp ≠ cur →
        getCommitsDiffCount env cmp = .ok diff → 1 < diff →
        env.newBranchRes = none → env.resetRes = none → env.addAllRes = none →
        env.commitRes = none →
        GitOp.pushForceUp cur ∈ (CodeFlowManageService.Squash env cmp true msg).2)
    ∧ (∀ env tb branch, getCurrentBranchName env = .ok branch →
        env.checkoutRes = none → env.switchRes = none →
        getCommitsDiffCount env tb = .ok 1 → env.resetRes = none →
        env.addAllRes = none → env.commitRes = none →
        GitOp.pushForceBare ∈ (PushService.SquashWithForcedPush env tb).2) := by
  refine ⟨?_, ?_, ?_⟩
  · intro env cmp msg b
    rcases hs : statusWithPorcelain env with e | status
    · simp [CodeFlowManageService.Squash, hs]
    by_cases hd : trimWS status = []
    case neg => simp [CodeFlowManageService.Squash, hs, hd]
    rcases hc : getCurrentBranchName env with e | cur
    · simp [CodeFlowManageService.Squash, hs, hd, hc]
    by_cases he : cmp = cur
    · simp [CodeFlowManageService.Squash, hs, hd, hc, he]
    rcases hdc : getCommitsDiffCount env cmp with e | diff
    · simp [CodeFlowManageService.Squash, hs, hd, hc, he, hdc]
    by_cases hle : diff ≤ 1
    · simp [CodeFlowManageService.Squash, hs, hd, hc, he, hdc, hle]
    rcases hnb : newBranchOp env (fallbackName cur env.timestamp) with e | u
    · simp [CodeFlowManageService.Squash, hs, hd, hc, he, hdc, hle, hnb]
    rcases hrs : resetSoftOp env with e | u
    · simp [CodeFlowManageService.Squash, hs, hd, hc, he, hdc, hle, hnb, hrs]
    rcases haa : addAllOp env with e | u
    · simp [CodeFlowManageService.Squash, hs, hd, hc, he, hdc, hle, hnb, hrs, haa]
    rcases hcm : commitOp env with e | u
    · simp [CodeFlowManageService.Squash, hs, hd, hc, he, hdc, hle, hnb, hrs, haa, hcm]
    · simp [CodeFlowManageService.Squash, hs, hd, hc, he, hdc, hle, hnb, hrs, haa, hcm]
  · intro env cmp msg status cur diff hstat hclean hcur hne hdiff hgt hnb hrs haa hcm
    have hsw : statusWithPorcelain env = .ok status := by
      simp [statusWithPorcelain, hstat]
    have hd1 : ¬ diff ≤ 1 := by omega
    cases hpf : env.pushForceRes with
    | none =>
      simp [CodeFlowManageService.Squash, hsw, hclean, hcur, hne, hdiff, hd1,
        newBranchOp, hnb, resetSoftOp, hrs, addAllOp, haa, commitOp, hcm,
        pushForceOp, hpf]
    | some out =>
      simp [CodeFlowManageService.Squash, hsw, hclean, hcur, hne, hdiff, hd1,
        newBranchOp, hnb, resetSoftOp, hrs, addAllOp, haa, commitOp, hcm,
        pushForceOp, hpf]
  · intro env tb branch hcur hco hsw2 hdiff hrs haa hcm
    cases hpf : env.pushForceRes with
    | none =>
      simp [PushService.SquashWithForcedPush, hcur, checkoutNewBranchOp, hco,
        switchToBranchOp, hsw2, hdiff, resetSoftOp, hrs, addAllOp, haa,
        commitOp, hcm, pushForceOp, hpf]
    | some out =>
      simp [PushService.SquashWithForcedPush, hcur, checkoutNewBranchOp, hco,
        switchToBranchOp, hsw2, hdiff, resetSoftOp, hrs, addAllOp, haa,
        commitOp, hcm, pushForceOp, hpf]

/-- Witness for the amended C4: without the flag the concrete squash of the
counterexample environment performs no force-push; with the flag it pushes
`feature-1`; the oldest revision's workflow force-pushes on the same data. -/
theorem squash_force_push_amended_witness :
    (GitOp.pushForceUp "feature-1".toList ∉
      (CodeFlowManageService.Squash
        { branchOut := .ok "feature-1".toList, cherryOut := .ok "+ a\n+ b".toList }
        "develop".toList false []).2)
    ∧ GitOp.pushForceUp "feature-1".toList ∈
      (CodeFlowManageService.Squash
        { branchOut := .ok "feature-1".toList, cherryOut := .ok "+ a\n+ b".toList }
        "develop".toList true []).2
    ∧ GitOp.pushForceBare ∈
      (PushService.SquashWithForcedPush
        { branchOut := .ok "feature-1".toList, cherryOut := .ok "+ a".toList,
          hash := "ab12cd".toList }
        "develop".toList).2 :=
  ⟨squash_force_push_amended.1
      { branchOut := .ok "feature-1".toList, cherryOut := .ok "+ a\n+ b".toList }
      "develop".toList [] "feature-1".toList,
   squash_force_push_amended.2.1
      { branchOut := .ok "feature-1".toList, cherryOut := .ok "+ a\n+ b".toList }
      "develop".toList [] [] "feature-1".toList 2
      (by decide) (by decide) (by decide) (by decide) (by decide) (by decide)
      (by decide) (by decide) (by decide) (by decide),
   squash_force_push_amended.2.2
      { branchOut := .ok "feature-1".toList, cherryOut := .ok "+ a".toList,
        hash := "ab12cd".toList }
      "develop".toList "feature-1".toList
      (by decide) (by decide) (by decide) (by decide) (by decide) (by decide) (by decide)⟩

theorem cleanLoop_all_ok (env : GitEnv) (bs : List (List Char))
    (h : ∀ b ∈ bs, env.deleteRes b = none) :
    cleanLoop env bs = (.ok (), bs.map GitOp.branchDelete) := by
  induction bs with
  | nil => rfl
  | cons b rest ih =>
    have hb : env.deleteRes b = none := h b (List.mem_cons_self b rest)
    have hr := ih (fun c hc => h c (List.mem_cons_of_mem b hc))
    simp [cleanLoop, deleteLocalBranchOp, hb, hr]

/-- Claim C9: given the parsed list of local branches starting with
`kk-fallback`, Clean succeeds deleting nothing when the list is empty, and
with `N` listed branches (all deletions succeeding) it issues exactly those
`N` force-deletes (`git branch -D`), in order, and reports the total `N`. -/
theorem clean_fallback_spec (env : GitEnv) (bs : List (List Char))
    (hlist : listBranchesMatching env = .ok bs) :
    (bs = [] →
      CodeFlowManageService.CleanFallbackBranches env =
        (.ok (), [.branchList kkFallback], none))
    ∧ (bs ≠ [] → (∀ b ∈ bs, env.deleteRes b = none) →
      CodeFlowManageService.CleanFallbackBranches env =
        (.ok (), .branchList kkFallback :: bs.map GitOp.branchDelete, some bs.length)) := by
  constructor
  · intro hb
    subst hb
    simp [CodeFlowManageService.CleanFallbackBranches, hlist]
  · intro hne hdel
    simp [CodeFlowManageService.CleanFallbackBranches, hlist, hne,
      cleanLoop_all_ok env bs hdel]

/-- Witness for C9: an empty listing, and a two-branch listing (one of them
the current branch, so its line carries the `*` marker) whose deletions both
succeed and whose reported total is 2. -/
theorem clean_fallback_spec_witness :
    (CodeFlowManageService.CleanFallbackBranches { branchListOut := .ok "\n".toList } =
      (.ok (), [.branchList kkFallback], none))
    ∧ (CodeFlowManageService.CleanFallbackBranches
        { branchListOut := .ok "  kk-fallback-a-1\n* kk-fallback-b-2".toList } =
      (.ok (), [.branchList kkFallback, .branchDelete "kk-fallback-a-1".toList,
        .branchDelete "kk-fallback-b-2".toList], some 2)) := by
  constructor
  · exact (clean_fallback_spec { branchListOut := .ok "\n".toList } [] (by decide)).1 rfl
  · have h := (clean_fallback_spec
      { branchListOut := .ok "  kk-fallback-a-1\n* kk-fallback-b-2".toList }
      ["kk-fallback-a-1".toList, "kk-fallback-b-2".toList] (by decide)).2
      (by decide) (by decide)
    exact h.trans (by decide)

theorem startsWithList_append (p s : List Char) : startsWithList p (p ++ s) = true := by
  induction p with
  | nil => rfl
  | cons a as ih => simp [startsWithList, ih]

/-- Claim C10: every fallback branch name Squash can create has the exact
form `kk-fallback-<current branch>-<timestamp>`: any `git branch <b>`
invocation in a Squash trace has `b = fallbackName cur ts` where `cur` is
the current branch and `ts` the timestamp, and every such name starts with
the `kk-fallback` marker that `CleanFallbackBranches` lists by. -/
theorem fallback_name_spec :
    (∀ cur ts, fallbackName cur ts = "kk-fallback-".toList ++ (cur ++ '-' :: ts)
      ∧ startsWithList kkFallback (fallbackName cur ts) = true)
    ∧ (∀ env cmp fp msg b,
        GitOp.newBranch b ∈ (CodeFlowManageService.Squash env cmp fp msg).2 →
        ∃ cur, getCurrentBranchName env = .ok cur ∧ b = fallbackName cur env.timestamp) := by
  constructor
  · intro cur ts
    exact ⟨rfl, startsWithList_append kkFallback ('-' :: (cur ++ '-' :: ts))⟩
  · intro env cmp fp msg b hmem
    rcases hs : statusWithPorcelain env with e | status
    · simp [CodeFlowManageService.Squash, hs] at hmem
    by_cases hd : trimWS status = []
    case neg => simp [CodeFlowManageService.Squash, hs, hd] at hmem
    rcases hc : getCurrentBranchName env with e | cur
    · simp [CodeFlowManageService.Squash, hs, hd, hc] at hmem
    by_cases he : cmp = cur
    · simp [CodeFlowManageService.Squash, hs, hd, hc, he] at hmem
    rcases hdc : getCommitsDiffCount env cmp with e | diff
    · simp [CodeFlowManageService.Squash, hs, hd, hc, he, hdc] at hmem
    by_cases hle : diff ≤ 1
    · simp [CodeFlowManageService.Squash, hs, hd, hc, he, hdc, hle] at hmem
    refine ⟨cur, rfl, ?_⟩
    rcases hnb : newBranchOp env (fallbackName cur env.timestamp) with e | u
    · simp [CodeFlowManageService.Squash, hs, hd, hc, he, hdc, hle, hnb] at hmem
      exact hmem
    rcases hrs : resetSoftOp env with e | u
    · simp [CodeFlowManageService.Squash, hs, hd, hc, he, hdc, hle, hnb, hrs] at hmem
      exact hmem
    rcases haa : addAllOp env with e | u
    · simp [CodeFlowManageService.Squash, hs, hd, hc, he, hdc, hle, hnb, hrs, haa] at hmem
      exact hmem
    rcases hcm : commitOp env with e | u
    · simp [CodeFlowManageService.Squash, hs, hd, hc, he, hdc, hle, hnb, hrs, haa, hcm] at hmem
      exact hmem
    cases fp
    · simp [CodeFlowManageService.Squash, hs, hd, hc, he, hdc, hle, hnb, hrs, haa, hcm] at hmem
      exact hmem
    rcases hpf : pushForceOp env with e | u
    · simp [CodeFlowManageService.Squash, hs, hd, hc, he, hdc, hle, hnb, hrs, haa, hcm, hpf]
        at hmem
      exact hmem
    · simp [CodeFlowManageService.Squash, hs, hd, hc, he, hdc, hle, hnb, hrs, haa, hcm, hpf]
        at hmem
      exact hmem

/-- Witness for C10: the fallback branch created for branch `feature-1` at a
concrete timestamp, observed in a concrete Squash trace, has the documented
form and the `kk-fallback` lead. -/
theorem fallback_name_spec_witness :
    (∃ cur, getCurrentBranchName
        { branchOut := .ok "feature-1".toList, cherryOut := .ok "+ a\n+ b".toList,
          timestamp := "2026-10-11-12-00-00".toList } = .ok cur ∧
      fallbackName "feature-1".toList "2026-10-11-12-00-00".toList =
        fallbackName cur "2026-10-11-12-00-00".toList)
    ∧ startsWithList kkFallback
        (fallbackName "feature-1".toList "2026-10-11-12-00-00".toList) = true := by
  constructor
  · have h := fallback_name_spec.2
      { branchOut := .ok "feature-1".toList, cherryOut := .ok "+ a\n+ b".toList,
        timestamp := "2026-10-11-12-00-00".toList }
      "develop".toList false []
      (fallbackName "feature-1".toList "2026-10-11-12-00-00".toList) (by decide)
    obtain ⟨cur, hcur, hb⟩ := h
    exact ⟨cur, hcur, hb⟩
  · exact (fallback_name_spec.1 "feature-1".toList "2026-10-11-12-00-00".toList).2

/-- Claim C5 (on the workflow modelled from spec section 4.5): the Push
workflow queries the working-tree status first; on a clean tree it performs
no staging and no commit; on a dirty tree it stages everything and commits
with the message derived from the current branch before the push happens;
and every push in its trace targets the current branch. -/
theorem pushWorkflow_spec (env : GitEnv) (status cur : List Char)
    (hstat : env.statusOut = .ok status) (hcur : getCurrentBranchName env = .ok cur) :
    ((PushWorkflow env).2.head? = some .status)
    ∧ (trimWS status = [] →
        GitOp.addAll ∉ (PushWorkflow env).2 ∧ ∀ m, GitOp.commit m ∉ (PushWorkflow env).2)
    ∧ (trimWS status ≠ [] → env.addAllRes = none → env.commitRes = none →
        env.pushUpRes = none →
        (PushWorkflow env).2 = [.status, .showCurrent, .addAll,
          .commit (deriveMessage cur), .pushUp cur])
    ∧ (∀ b, GitOp.pushUp b ∈ (PushWorkflow env).2 → b = cur) := by
  have hsw : statusWithPorcelain env = .ok status := by
    simp [statusWithPorcelain, hstat]
  refine ⟨?_, ?_, ?_, ?_⟩
  · by_cases hd : trimWS status = []
    · rcases hpu : pushUpOp env with e | u <;>
        simp [PushWorkflow, hsw, hcur, hd, hpu]
    · rcases haa : addAllOp env with e | u
      · simp [PushWorkflow, hsw, hcur, hd, haa]
      rcases hcm : commitOp env with e | u
      · simp [PushWorkflow, hsw, hcur, hd, haa, hcm]
      rcases hpu : pushUpOp env with e | u <;>
        simp [PushWorkflow, hsw, hcur, hd, haa, hcm, hpu]
  · intro hd
    rcases hpu : pushUpOp env with e | u <;>
      simp [PushWorkflow, hsw, hcur, hd, hpu]
  · intro hd haa hcm hpu
    simp [PushWorkflow, hsw, hcur, hd, addAllOp, haa, commitOp, hcm, pushUpOp, hpu]
  · intro b hmem
    by_cases hd : trimWS status = []
    · rcases hpu : pushUpOp env with e | u <;>
        simp [PushWorkflow, hsw, hcur, hd, hpu] at hmem <;> exact hmem
    · rcases haa : addAllOp env with e | u
      · simp [PushWorkflow, hsw, hcur, hd, haa] at hmem
      rcases hcm : commitOp env with e | u
      · simp [PushWorkflow, hsw, hcur, hd, haa, hcm] at hmem
      rcases hpu : pushUpOp env with e | u <;>
        simp [PushWorkflow, hsw, hcur, hd, haa, hcm, hpu] at hmem <;> exact hmem

/-- Witness for C5: a dirty tree (`status " M a.txt"`) on branch
`ccs-123-fix-login-bug`; the workflow stages, commits with the derived
message, then pushes the current branch. -/
theorem pushWorkflow_spec_witness :
    (PushWorkflow
      { statusOut := .ok " M a.txt".toList,
        branchOut := .ok "ccs-123-fix-login-bug".toList }).2 =
    [.status, .showCurrent, .addAll, .commit "[ccs-123] fix login bug".toList,
      .pushUp "ccs-123-fix-login-bug".toList] := by
  have h := (pushWorkflow_spec
    { statusOut := .ok " M a.txt".toList, branchOut := .ok "ccs-123-fix-login-bug".toList }
    " M a.txt".toList "ccs-123-fix-login-bug".toList (by decide) (by decide)).2.2.1
    (by decide) (by decide) (by decide) (by decide)
  exact h.trans (by decide)
